import Mathlib

/-!
# Verification of the scummvm-gtk game-catalog pipeline

Shallow embedding of `src/scummvm_gtk/games.py` and the view-pipeline parts of
`src/scummvm_gtk/main.py`: the game record data model, the library document
(favorites / play time / custom games), catalog reconciliation
(`get_all_games`), installed-game detection parsing
(`detect_installed_games`), sorting (`sort_games`), the free-text search
filter, grouping by engine, favorites, play-session recording, and library
export / import.

Conventions of the embedding:
* Python strings are modelled as Lean `String`; Python string comparison
  (`<` on strings, used by `sorted`) is code-point lexicographic, modelled by
  `lexLt` / `lexLe` on `List Char` below (Lean's own `String.lt` is
  semantically the same but its decidability procedure does not reduce in the
  kernel, so we use an explicit executable definition).
* `str.lower()` is modelled by `lowerData` (ASCII case folding; every
  searched / sorted field of the catalog is ASCII apart from characters that
  are already lower case, on which both foldings agree).
* Python dicts (insertion-ordered, unique keys) are modelled as association
  lists with Python's assignment semantics: assigning to an existing key
  replaces the value in place, assigning a fresh key appends.
* Epoch timestamps and accumulated play seconds (`time.time()` floats in the
  source) are modelled as integers; the claims under study are bookkeeping
  identities that do not depend on float rounding.
* `sorted(..., key=k)` (CPython timsort) is a stable sort by a total preorder
  on keys; any stable sort agrees with it, and we use insertion sort
  (`List.insertionSort`), which is stable.  `reverse=True` is CPython's
  stable descending sort, i.e. the stable sort by the flipped key preorder.
-/

namespace ScummvmGtk

/-! ## Python string primitives on `List Char` -/

/-- Python string `<`: code-point lexicographic strict order. -/
def lexLt : List Char → List Char → Bool
  | [], [] => false
  | [], _ :: _ => true
  | _ :: _, [] => false
  | a :: as, b :: bs =>
    if a.toNat < b.toNat then true
    else if b.toNat < a.toNat then false
    else lexLt as bs

/-- Python string `<=`, defined from `lexLt` as in a total order. -/
def lexLe (x y : List Char) : Bool := !(lexLt y x)

theorem char_toNat_inj {a b : Char} (h : a.toNat = b.toNat) : a = b :=
  Char.ext (UInt32.ext h)

theorem lexLt_irrefl (x : List Char) : lexLt x x = false := by
  induction x with
  | nil => rfl
  | cons a as ih => simp [lexLt, ih]

theorem lexLt_trans : ∀ {x y z : List Char},
    lexLt x y = true → lexLt y z = true → lexLt x z = true
  | [], [], _, h, _ => by simp [lexLt] at h
  | [], _ :: _, [], _, h => by simp [lexLt] at h
  | [], _ :: _, _ :: _, _, _ => rfl
  | _ :: _, [], _, h, _ => by simp [lexLt] at h
  | _ :: _, _ :: _, [], _, h => by simp [lexLt] at h
  | a :: as, b :: bs, c :: cs, h₁, h₂ => by
    simp only [lexLt] at h₁ h₂ ⊢
    rcases Nat.lt_trichotomy a.toNat b.toNat with hab | hab | hab <;>
      rcases Nat.lt_trichotomy b.toNat c.toNat with hbc | hbc | hbc
    · rw [if_pos (by omega)]
    · rw [if_pos (by omega)]
    · rw [if_neg (by omega), if_pos (by omega)] at h₂; exact absurd h₂ (by simp)
    · rw [if_pos (by omega)]
    · rw [if_neg (by omega), if_neg (by omega)] at h₁ h₂ ⊢
      exact lexLt_trans h₁ h₂
    · rw [if_neg (by omega), if_pos (by omega)] at h₂; exact absurd h₂ (by simp)
    · rw [if_neg (by omega), if_pos (by omega)] at h₁; exact absurd h₁ (by simp)
    · rw [if_neg (by omega), if_pos (by omega)] at h₁; exact absurd h₁ (by simp)
    · rw [if_neg (by omega), if_pos (by omega)] at h₁; exact absurd h₁ (by simp)

theorem lexLt_or_eq_of_not_lexLt : ∀ {x y : List Char},
    lexLt x y = false → lexLt y x = true ∨ x = y
  | [], [], _ => Or.inr rfl
  | [], _ :: _, h => by simp [lexLt] at h
  | _ :: _, [], _ => Or.inl rfl
  | a :: as, b :: bs, h => by
    simp only [lexLt] at h ⊢
    rcases Nat.lt_trichotomy a.toNat b.toNat with hab | hab | hab
    · rw [if_pos (by omega)] at h; exact absurd h (by simp)
    · rw [if_neg (by omega), if_neg (by omega)] at h ⊢
      rcases lexLt_or_eq_of_not_lexLt h with h' | h'
      · exact Or.inl h'
      · exact Or.inr (by rw [char_toNat_inj hab, h'])
    · rw [if_pos (by omega)]; exact Or.inl rfl

theorem lexLt_asymm {x y : List Char} (h : lexLt x y = true) : lexLt y x = false := by
  by_contra hc
  have hyx : lexLt y x = true := by
    cases hxy : lexLt y x
    · exact absurd hxy hc
    · rfl
  have := lexLt_trans h hyx
  simp [lexLt_irrefl] at this

theorem lexLe_refl (x : List Char) : lexLe x x = true := by
  simp [lexLe, lexLt_irrefl]

theorem lexLe_total (x y : List Char) : lexLe x y = true ∨ lexLe y x = true := by
  unfold lexLe
  by_cases h : lexLt y x = true
  · right; simp [lexLt_asymm h]
  · left; simp at h; simp [h]

theorem lexLe_trans {x y z : List Char}
    (h₁ : lexLe x y = true) (h₂ : lexLe y z = true) : lexLe x z = true := by
  unfold lexLe at h₁ h₂ ⊢
  simp only [Bool.not_eq_true'] at h₁ h₂ ⊢
  by_contra hc
  simp only [Bool.not_eq_false] at hc
  rcases lexLt_or_eq_of_not_lexLt h₁ with h | h
  · exact absurd (lexLt_trans hc h) (by simp [h₂])
  · subst h
    exact absurd hc (by simp [h₂])

theorem lexLe_antisymm {x y : List Char}
    (h₁ : lexLe x y = true) (h₂ : lexLe y x = true) : x = y := by
  unfold lexLe at h₁ h₂
  simp only [Bool.not_eq_true'] at h₁ h₂
  rcases lexLt_or_eq_of_not_lexLt h₁ with h | h
  · exact absurd h (by simp [h₂])
  · exact h.symm

theorem lexLt_of_lexLe_of_ne {x y : List Char}
    (h₁ : lexLe x y = true) (h₂ : x ≠ y) : lexLt x y = true := by
  unfold lexLe at h₁
  simp only [Bool.not_eq_true'] at h₁
  rcases lexLt_or_eq_of_not_lexLt h₁ with h | h
  · exact h
  · exact absurd h.symm h₂

theorem lexLe_of_lexLt {x y : List Char} (h : lexLt x y = true) : lexLe x y = true := by
  simp [lexLe, lexLt_asymm h]

/-- ASCII case folding of one character (`str.lower()` restricted to ASCII). -/
def lowerChar (c : Char) : Char :=
  if 65 ≤ c.toNat ∧ c.toNat ≤ 90 then Char.ofNat (c.toNat + 32) else c

/-- `s.lower()` on the character data of a Python string. -/
def lowerData (s : String) : List Char := s.data.map lowerChar

/-- Python whitespace (ASCII part), as used by `str.strip()` / `str.split()`. -/
def isWS (c : Char) : Bool :=
  c = ' ' || c = '\t' || c = '\n' || c = '\r' || c = '\x0b' || c = '\x0c'

/-- `str.strip()`: drop leading and trailing whitespace. -/
def trimChars (l : List Char) : List Char :=
  ((l.dropWhile isWS).reverse.dropWhile isWS).reverse

/-- `str.split(sep)` for a one-character separator: keeps empty fields. -/
def splitOnChar (sep : Char) : List Char → List (List Char)
  | [] => [[]]
  | c :: t =>
    match splitOnChar sep t with
    | [] => if c = sep then [[], []] else [[c]]
    | h :: r => if c = sep then [] :: h :: r else (c :: h) :: r

/-- Splitting at every character satisfying `p`, keeping empty fields. -/
def splitOnP (p : Char → Bool) : List Char → List (List Char)
  | [] => [[]]
  | c :: t =>
    match splitOnP p t with
    | [] => if p c then [[], []] else [[c]]
    | h :: r => if p c then [] :: h :: r else (c :: h) :: r

/-- `str.split()` with no argument: split on whitespace runs, dropping
empty fields. -/
def splitWS (l : List Char) : List (List Char) :=
  (splitOnP isWS l).filter (· ≠ [])

/-- `' '.join(parts)`. -/
def joinSpace : List (List Char) → List Char
  | [] => []
  | [x] => x
  | x :: y :: t => x ++ ' ' :: joinSpace (y :: t)

/-- `needle` is a prefix of `hay` (executable). -/
def prefixB : List Char → List Char → Bool
  | [], _ => true
  | _ :: _, [] => false
  | a :: as, b :: bs => a = b && prefixB as bs

/-- Python's substring test `needle in hay` (executable). -/
def containsB (needle : List Char) : List Char → Bool
  | [] => prefixB needle []
  | c :: t => prefixB needle (c :: t) || containsB needle t

theorem prefixB_iff : ∀ {n h : List Char}, prefixB n h = true ↔ n <+: h
  | [], h => by simp [prefixB]
  | a :: as, [] => by simp [prefixB]
  | a :: as, b :: bs => by
    simp only [prefixB, Bool.and_eq_true, decide_eq_true_eq, List.cons_prefix_cons]
    exact and_congr Iff.rfl prefixB_iff

theorem containsB_iff : ∀ {n h : List Char}, containsB n h = true ↔ n <:+: h
  | n, [] => by
    simp [containsB, prefixB_iff, List.prefix_nil, List.infix_nil]
  | n, c :: t => by
    simp only [containsB, Bool.or_eq_true, prefixB_iff, containsB_iff]
    exact Iff.symm List.infix_cons_iff

/-! ## Data model (`games.py`, class `Game` and the library document) -/

/-- `Game` from `games.py`: constructor fields in source order, followed by
the runtime fields set in `__init__` (`favorite`, `last_played`,
`total_play_time`). -/
structure Game where
  game_id : String
  name : String
  engine : String
  description : String
  year : String
  company : String
  platform : String
  path : String
  icon_name : String
  installed : Bool
  genre : String
  compatibility : String
  wiki_title : String
  favorite : Bool
  last_played : Int
  total_play_time : Int
deriving DecidableEq, Repr

/-- `Game.__init__`: applies the `icon_name = icon_name or game_id` and
`wiki_title = wiki_title or name` defaulting and initializes the runtime
fields to `False` / `0` / `0`. -/
def Game.build (game_id name engine description year company platform path
    icon_name : String) (installed : Bool)
    (genre compatibility wiki_title : String) : Game :=
  ⟨game_id, name, engine, description, year, company, platform, path,
   if icon_name = "" then game_id else icon_name,
   installed, genre, compatibility,
   if wiki_title = "" then name else wiki_title,
   false, 0, 0⟩

/-- A `KNOWN_GAMES` entry: positional `id, name, engine, description, year,
company, platform` plus keyword `genre`, `compatibility`, `wiki_title`. -/
def knownGame (game_id name engine description year company platform genre
    compatibility wiki_title : String) : Game :=
  Game.build game_id name engine description year company platform "" ""
    false genre compatibility wiki_title

/-- A per-game entry of `library.json`'s `games` mapping.  Absent JSON keys
are identified with the default values the source supplies on read
(`favorite=False`, `last_played=0`, `total_play_time=0`); `play_start` keeps
its present/absent distinction because `record_play_end` pops the key. -/
structure GameState where
  favorite : Bool
  last_played : Int
  total_play_time : Int
  play_start : Option Int
deriving DecidableEq, Repr

/-- The entry an absent id denotes (`games.get(id, {})`). -/
def emptyGS : GameState := ⟨false, 0, 0, none⟩

/-- The library document `library.json`:
`{"games": {id: {...}}, "custom_games": [...]}`.  Custom-game dicts are
represented by the `Game` record `Game.from_dict` builds from them. -/
structure Library where
  games : List (String × GameState)
  custom_games : List Game
deriving DecidableEq, Repr

/-! ## Python dict operations on association lists -/

section Dict

variable {α : Type}

/-- Dict lookup (`d[k]` / `d.get(k)`): first binding of `k`. -/
def alookup : List (String × α) → String → Option α
  | [], _ => none
  | p :: t, k => if p.1 = k then some p.2 else alookup t k

/-- Dict assignment `d[k] = v`: replace in place if present, append if
fresh — Python's insertion-order semantics. -/
def dinsert (d : List (String × α)) (k : String) (v : α) : List (String × α) :=
  match alookup d k with
  | some _ => d.map (fun p => if p.1 = k then (k, v) else p)
  | none => d ++ [(k, v)]

/-- In-place mutation of the value stored at an existing key
(`d[k].field = ...`). -/
def dmodify (d : List (String × α)) (k : String) (f : α → α) :
    List (String × α) :=
  d.map (fun p => if p.1 = k then (p.1, f p.2) else p)

theorem alookup_append (d₁ d₂ : List (String × α)) (k : String) :
    alookup (d₁ ++ d₂) k =
      match alookup d₁ k with
      | some v => some v
      | none => alookup d₂ k := by
  induction d₁ with
  | nil => simp [alookup]
  | cons p t ih =>
    by_cases h : p.1 = k <;> simp [alookup, h, ih]

theorem alookup_map_keyfun (d : List (String × α)) (f : String → α → α)
    (k : String) :
    alookup (d.map (fun p => (p.1, f p.1 p.2))) k = (alookup d k).map (f k) := by
  induction d with
  | nil => simp [alookup]
  | cons p t ih =>
    by_cases h : p.1 = k
    · subst h; simp [alookup, ih]
    · simp [alookup, h, ih]

theorem alookup_map_replace (d : List (String × α)) (k : String) (v : α)
    (h : (alookup d k).isSome = true) :
    alookup (d.map (fun p => if p.1 = k then (k, v) else p)) k = some v := by
  induction d with
  | nil => simp [alookup] at h
  | cons p t ih =>
    by_cases hp : p.1 = k
    · simp [alookup, hp]
    · simp only [alookup, hp, if_false] at h
      simp [alookup, hp, ih h]

theorem alookup_map_replace_ne (d : List (String × α)) (k k' : String) (v : α)
    (h : k' ≠ k) :
    alookup (d.map (fun p => if p.1 = k then (k, v) else p)) k' =
      alookup d k' := by
  induction d with
  | nil => simp [alookup]
  | cons p t ih =>
    by_cases hp : p.1 = k
    · have hne : p.1 ≠ k' := by rw [hp]; exact Ne.symm h
      simp [alookup, hp, Ne.symm h, hne, ih]
    · by_cases hp' : p.1 = k' <;> simp [alookup, hp, hp', h, ih]

theorem alookup_dinsert_self (d : List (String × α)) (k : String) (v : α) :
    alookup (dinsert d k v) k = some v := by
  unfold dinsert
  cases hl : alookup d k with
  | none =>
    rw [alookup_append, hl]
    simp [alookup]
  | some w =>
    exact alookup_map_replace d k v (by simp [hl])

theorem alookup_dinsert_ne (d : List (String × α)) (k k' : String) (v : α)
    (h : k' ≠ k) : alookup (dinsert d k v) k' = alookup d k' := by
  unfold dinsert
  cases hl : alookup d k with
  | none =>
    rw [alookup_append]
    cases hl' : alookup d k' with
    | none => simp [alookup, Ne.symm h]
    | some w => simp
  | some w =>
    exact alookup_map_replace_ne d k k' v h

theorem alookup_dmodify_self (d : List (String × α)) (k : String) (f : α → α) :
    alookup (dmodify d k f) k = (alookup d k).map f := by
  unfold dmodify
  induction d with
  | nil => simp [alookup]
  | cons p t ih =>
    by_cases h : p.1 = k <;> simp [alookup, h, ih]

theorem alookup_dmodify_ne (d : List (String × α)) (k k' : String) (f : α → α)
    (h : k' ≠ k) : alookup (dmodify d k f) k' = alookup d k' := by
  unfold dmodify
  induction d with
  | nil => simp [alookup]
  | cons p t ih =>
    by_cases hp : p.1 = k
    · have hne : p.1 ≠ k' := by rw [hp]; exact Ne.symm h
      simp [alookup, hp, hne, Ne.symm h, ih]
    · by_cases hp' : p.1 = k' <;> simp [alookup, hp, hp', h, ih]

theorem keys_dinsert (d : List (String × α)) (k : String) (v : α) :
    (dinsert d k v).map Prod.fst =
      match alookup d k with
      | some _ => d.map Prod.fst
      | none => d.map Prod.fst ++ [k] := by
  unfold dinsert
  cases alookup d k with
  | none => simp
  | some w =>
    induction d with
    | nil => simp
    | cons p t ih =>
      by_cases h : p.1 = k <;> simp [h, ih]

theorem keys_dmodify (d : List (String × α)) (k : String) (f : α → α) :
    (dmodify d k f).map Prod.fst = d.map Prod.fst := by
  induction d with
  | nil => rfl
  | cons p t ih =>
    by_cases h : p.1 = k <;> simp [dmodify, h, ih] <;> simp [dmodify] at ih <;>
      exact ih

theorem alookup_isSome_iff (d : List (String × α)) (k : String) :
    (alookup d k).isSome = true ↔ k ∈ d.map Prod.fst := by
  induction d with
  | nil => simp [alookup]
  | cons p t ih =>
    by_cases h : p.1 = k <;> simp [alookup, h, ih, eq_comm (a := k)]

theorem alookup_eq_none_iff (d : List (String × α)) (k : String) :
    alookup d k = none ↔ k ∉ d.map Prod.fst := by
  rw [← alookup_isSome_iff]
  cases alookup d k <;> simp

theorem nodupKeys_dinsert (d : List (String × α)) (k : String) (v : α)
    (h : (d.map Prod.fst).Nodup) : ((dinsert d k v).map Prod.fst).Nodup := by
  rw [keys_dinsert]
  cases hl : alookup d k with
  | some w => exact h
  | none =>
    have hk : k ∉ d.map Prod.fst := (alookup_eq_none_iff d k).mp hl
    rw [List.nodup_append]
    refine ⟨h, by simp, fun a ha hak => ?_⟩
    exact hk ((List.mem_singleton.mp hak) ▸ ha)

theorem nodupKeys_dmodify (d : List (String × α)) (k : String) (f : α → α)
    (h : (d.map Prod.fst).Nodup) : ((dmodify d k f).map Prod.fst).Nodup := by
  rw [keys_dmodify]; exact h

theorem alookup_of_mem_nodup (d : List (String × α)) (p : String × α)
    (hp : p ∈ d) (h : (d.map Prod.fst).Nodup) : alookup d p.1 = some p.2 := by
  induction d with
  | nil => simp at hp
  | cons q t ih =>
    simp only [List.map_cons, List.nodup_cons] at h
    rcases List.mem_cons.mp hp with rfl | hmem
    · simp [alookup]
    · have hq : q.1 ≠ p.1 := by
        intro he
        exact h.1 (he ▸ List.mem_map_of_mem Prod.fst hmem)
      simp [alookup, hq, ih hmem h.2]

theorem mem_of_alookup_eq_some {d : List (String × α)} {k : String} {v : α}
    (h : alookup d k = some v) : (k, v) ∈ d := by
  induction d with
  | nil => simp [alookup] at h
  | cons p t ih =>
    by_cases hp : p.1 = k
    · simp only [alookup, hp, if_true, Option.some.injEq] at h
      have hpv : p = (k, v) := by cases p; simp_all
      exact hpv ▸ List.mem_cons_self p t
    · simp only [alookup, hp, if_false] at h
      exact List.mem_cons_of_mem _ (ih h)

end Dict

/-! ## `detect_installed_games` (prober output parsing) -/

/-- One line of `--list-targets` output: `line.split()`, and if it has at
least two whitespace-separated tokens, a `Game(id, ' '.join(rest),
installed=True)`. -/
def parseTargetLine (line : List Char) : Option Game :=
  match splitWS line with
  | tok₀ :: tok₁ :: rest =>
    some (Game.build ⟨tok₀⟩ ⟨joinSpace (tok₁ :: rest)⟩ "" "" "" "" "" "" ""
      true "" "" "")
  | _ => none

/-- `detect_installed_games`, on the captured stdout of a successful
`scummvm --list-targets` run: strip, split into lines, skip the two header
lines, parse each remaining line.  (Prober failure degrades to `[]`, i.e. to
this function never being reached with any lines.) -/
def detect_installed_games (stdout : String) : List Game :=
  ((splitOnChar '\n' (trimChars stdout.data)).drop 2).filterMap parseTargetLine

/-! ## `KNOWN_GAMES` (the static catalog) -/

/-- The static catalog `KNOWN_GAMES` from `games.py`. -/
def KNOWN_GAMES : List Game := [
  knownGame "monkey" "The Secret of Monkey Island" "scumm"
    "A young man named Guybrush Threepwood arrives on Mêlée Island with the dream of becoming a pirate."
    "1990" "LucasArts" "DOS/Amiga/FM-Towns" "Adventure" "Excellent"
    "The Secret of Monkey Island",
  knownGame "monkey2" "Monkey Island 2: LeChuck's Revenge" "scumm"
    "Guybrush Threepwood tells the tale of his search for the legendary treasure of Big Whoop."
    "1991" "LucasArts" "DOS/Amiga/FM-Towns" "Adventure" "Excellent"
    "Monkey Island 2: LeChuck's Revenge",
  knownGame "atlantis" "Indiana Jones and the Fate of Atlantis" "scumm"
    "Indiana Jones must stop the Nazis from harnessing the power of Atlantis."
    "1992" "LucasArts" "DOS/Amiga/FM-Towns" "Adventure" "Excellent"
    "Indiana Jones and the Fate of Atlantis",
  knownGame "tentacle" "Day of the Tentacle" "scumm"
    "Purple Tentacle drinks toxic sludge and becomes evil. Bernard, Hoagie and Laverne must stop him across time."
    "1993" "LucasArts" "DOS" "Adventure" "Excellent" "Day of the Tentacle",
  knownGame "samnmax" "Sam & Max Hit the Road" "scumm"
    "Sam & Max investigate a missing bigfoot from a carnival freak show."
    "1993" "LucasArts" "DOS" "Adventure" "Excellent" "Sam & Max Hit the Road",
  knownGame "dig" "The Dig" "scumm"
    "An asteroid threatens Earth. A team sent to divert it discovers an alien world."
    "1995" "LucasArts" "DOS" "Adventure" "Excellent" "The Dig (video game)",
  knownGame "ft" "Full Throttle" "scumm"
    "Ben, leader of the Polecats biker gang, is framed for murder."
    "1995" "LucasArts" "DOS" "Adventure" "Excellent"
    "Full Throttle (1995 video game)",
  knownGame "comi" "The Curse of Monkey Island" "scumm"
    "Guybrush accidentally places a cursed ring on Elaine's finger and must find the cure."
    "1997" "LucasArts" "Windows" "Adventure" "Excellent"
    "The Curse of Monkey Island",
  knownGame "grim" "Grim Fandango" "grim"
    "Manny Calavera, a travel agent in the Land of the Dead, uncovers a conspiracy."
    "1998" "LucasArts" "Windows" "Adventure" "Good" "Grim Fandango",
  knownGame "maniac" "Maniac Mansion" "scumm"
    "Dave and friends infiltrate a mad scientist's mansion to rescue Sandy."
    "1987" "LucasArts" "C64/DOS/NES" "Adventure" "Excellent" "Maniac Mansion",
  knownGame "loom" "Loom" "scumm"
    "Bobbin Threadbare, a young Weaver, must unravel the mystery of the Great Loom."
    "1990" "LucasArts" "DOS/FM-Towns" "Adventure" "Excellent"
    "Loom (video game)",
  knownGame "zak" "Zak McKracken and the Alien Mindbenders" "scumm"
    "Tabloid journalist Zak McKracken stumbles upon an alien conspiracy."
    "1988" "LucasArts" "C64/DOS/FM-Towns" "Adventure" "Excellent"
    "Zak McKracken and the Alien Mindbenders",
  knownGame "sky" "Beneath a Steel Sky" "sky"
    "Robert Foster escapes Union City's oppressive regime with his robot companion Joey."
    "1994" "Revolution" "DOS/Amiga" "Adventure" "Excellent"
    "Beneath a Steel Sky",
  knownGame "sword1" "Broken Sword: Shadow of the Templars" "sword1"
    "George Stobbart investigates a bombing in Paris linked to the Knights Templar."
    "1996" "Revolution" "DOS/Windows/PS1" "Adventure" "Excellent"
    "Broken Sword: The Shadow of the Templars",
  knownGame "sword2" "Broken Sword II: The Smoking Mirror" "sword2"
    "George and Nico investigate a drug lord's connection to a Mayan prophecy."
    "1997" "Revolution" "Windows/PS1" "Adventure" "Good"
    "Broken Sword II: The Smoking Mirror",
  knownGame "queen" "Flight of the Amazon Queen" "queen"
    "Pilot Joe King crash-lands in the Amazon and must stop a mad scientist."
    "1995" "Interactive Binary Illusions" "DOS/Amiga" "Adventure" "Excellent"
    "Flight of the Amazon Queen",
  knownGame "simon1" "Simon the Sorcerer" "agos"
    "Simon is transported to a fantasy world and must rescue a wizard from an evil sorcerer."
    "1993" "Adventure Soft" "DOS/Amiga" "Adventure" "Excellent"
    "Simon the Sorcerer",
  knownGame "simon2" "Simon the Sorcerer II" "agos"
    "Simon returns to the fantasy world and must stop the evil sorcerer Sordid again."
    "1995" "Adventure Soft" "DOS/Windows" "Adventure" "Good"
    "Simon the Sorcerer II: The Lion, the Wizard and the Wardrobe",
  knownGame "kyra1" "The Legend of Kyrandia" "kyra"
    "Brandon must stop the evil jester Malcolm who has turned the land to stone."
    "1992" "Westwood Studios" "DOS" "Adventure" "Good"
    "The Legend of Kyrandia",
  knownGame "kyra2" "The Legend of Kyrandia: Hand of Fate" "kyra"
    "Zanthia must find an anchor stone to stop the land from disappearing."
    "1993" "Westwood Studios" "DOS" "Adventure" "Good"
    "The Legend of Kyrandia: Hand of Fate",
  knownGame "kyra3" "The Legend of Kyrandia: Malcolm's Revenge" "kyra"
    "Malcolm escapes prison and must clear his name."
    "1994" "Westwood Studios" "DOS" "Adventure" "Good"
    "The Legend of Kyrandia: Malcolm's Revenge",
  knownGame "lure" "Lure of the Temptress" "lure"
    "Diermot must free the town of Turnvale from the enchantress Selena."
    "1992" "Revolution" "DOS/Amiga" "Adventure" "Good"
    "Lure of the Temptress",
  knownGame "touche" "Touché: The Adventures of the Fifth Musketeer" "touche"
    "Geoffroi Le Bansen seeks to become the Fifth Musketeer."
    "1995" "Clipper Software" "DOS" "Adventure" "Good"
    "Touché: The Adventures of the Fifth Musketeer",
  knownGame "drascula" "Drascula: The Vampire Strikes Back" "drascula"
    "John Hacker must rescue his girlfriend from the vampire Drascula."
    "1996" "Alcachofa Soft" "DOS" "Adventure" "Good"
    "Drascula: The Vampire Strikes Back",
  knownGame "myst" "Myst" "mohawk"
    "Explore the mysterious island of Myst and unravel its secrets."
    "1993" "Cyan" "Mac/Windows" "Puzzle" "Good" "Myst",
  knownGame "riven" "Riven: The Sequel to Myst" "mohawk"
    "Continue the story on the Age of Riven."
    "1997" "Cyan" "Mac/Windows" "Puzzle" "Good" "Riven",
  knownGame "agi-fanmade" "AGI Fan Games" "agi"
    "Fan-made games using the AGI engine."
    "" "Various" "DOS" "Adventure" "Good" "",
  knownGame "sci-fanmade" "SCI Fan Games" "sci"
    "Fan-made games using the SCI engine."
    "" "Various" "DOS" "Adventure" "Good" "",
  knownGame "bass" "Beneath a Steel Sky (Remastered)" "sky"
    "Remastered version with enhanced audio and graphics."
    "2009" "Revolution" "iOS/Android" "Adventure" "Good" "",
  knownGame "dreamweb" "DreamWeb" "dreamweb"
    "Ryan must prevent the Apocalypse in this cyberpunk adventure."
    "1994" "Creative Reality" "DOS" "Adventure" "Good" "DreamWeb"]

/-! ## Library-store operations (favorites, play time) -/

/-- `is_favorite(game_id)` against an in-memory library document. -/
def is_favorite (lib : Library) (game_id : String) : Bool :=
  ((alookup lib.games game_id).getD emptyGS).favorite

/-- `toggle_favorite(game_id)`: flip the flag (default `False`), persist,
return the new value.  Result: (returned flag, written library). -/
def toggle_favorite (lib : Library) (game_id : String) : Bool × Library :=
  let gd := (alookup lib.games game_id).getD emptyGS
  let gd' : GameState := { gd with favorite := !gd.favorite }
  (gd'.favorite, { lib with games := dinsert lib.games game_id gd' })

/-- `record_play_start(game_id)` at time `now`. -/
def record_play_start (lib : Library) (game_id : String) (now : Int) :
    Library :=
  let gd := (alookup lib.games game_id).getD emptyGS
  let gd' : GameState := { gd with play_start := some now }
  { lib with games := dinsert lib.games game_id gd' }

/-- `record_play_end(game_id)`.  The source calls `time.time()` twice:
`tElapsed` is the reading used for `elapsed = time.time() - start`,
`tEnd` the reading stored into `last_played`.  `play_start` is popped with
default `0`, and the elapsed time is accumulated only when it is nonzero. -/
def record_play_end (lib : Library) (game_id : String)
    (tElapsed tEnd : Int) : Library :=
  let gd := (alookup lib.games game_id).getD emptyGS
  let start := gd.play_start.getD 0
  let gd' : GameState :=
    if start ≠ 0 then
      { gd with play_start := none,
                total_play_time := gd.total_play_time + (tElapsed - start),
                last_played := tEnd }
    else
      { gd with play_start := none, last_played := tEnd }
  { lib with games := dinsert lib.games game_id gd' }

/-! ## Export / import (`export_library_json` / `import_library_json`) -/

/-- The JSON document `export_library_json` writes:
`{"library": <library.json contents>, "games": [g.to_dict() for g in games]}`.
The `games` array elements are the `to_dict` images, which carry exactly the
constructor fields; we keep them as `Game` records. -/
structure ExportDoc where
  library : Library
  games : List Game
deriving DecidableEq, Repr

def export_library_json (lib : Library) (games : List Game) : ExportDoc :=
  ⟨lib, games⟩

/-- `dict.update(other)`: assign every binding of `other`, in order. -/
def dictUpdate (d other : List (String × GameState)) :
    List (String × GameState) :=
  other.foldl (fun acc p => dinsert acc p.1 p.2) d

/-- `import_library_json` on a successfully parsed document: merge the
document's per-game entries into the current library (dict `update`), and
return the document's `games` array for the caller to merge as custom
games.  Result: (written library, returned game dicts). -/
def import_library_json (lib : Library) (doc : ExportDoc) :
    Library × List Game :=
  ({ lib with games := dictUpdate lib.games doc.library.games }, doc.games)

/-! ## `get_all_games` (catalog reconciliation) -/

/-- Step 1 of `get_all_games`: `known = {g.game_id: g for g in KNOWN_GAMES}`. -/
def staticStep (d : List (String × Game)) (g : Game) : List (String × Game) :=
  dinsert d g.game_id g

/-- Step 2: `for cg in lib["custom_games"]: if gid and gid not in known:
known[gid] = Game.from_dict(cg)`. -/
def customStep (d : List (String × Game)) (cg : Game) : List (String × Game) :=
  if cg.game_id ≠ "" ∧ alookup d cg.game_id = none then
    dinsert d cg.game_id cg
  else d

/-- Step 3: for each prober result, overlay `installed=True` and `path` onto
a present record, otherwise insert the prober record. -/
def proberStep (d : List (String × Game)) (g : Game) : List (String × Game) :=
  match alookup d g.game_id with
  | some _ =>
    dmodify d g.game_id (fun v => { v with installed := true, path := g.path })
  | none => dinsert d g.game_id g

/-- Step 4: overlay `favorite` / `last_played` / `total_play_time` from the
library's per-game entry (defaulting when absent) onto a record. -/
def overlayG (lib : Library) (gid : String) (g : Game) : Game :=
  let gd := (alookup lib.games gid).getD emptyGS
  { g with favorite := gd.favorite, last_played := gd.last_played,
           total_play_time := gd.total_play_time }

/-- `get_all_games`, parameterized by the static catalog, the prober result
list, and the in-memory library document; returns
`sorted(known.values(), key=lambda g: g.name)`. -/
def get_all_games (staticCat proberResults : List Game) (lib : Library) :
    List Game :=
  List.insertionSort (fun a b => lexLe a.name.data b.name.data = true)
    (((proberResults.foldl proberStep
          (lib.custom_games.foldl customStep
            (staticCat.foldl staticStep []))).map
        (fun p => (p.1, overlayG lib p.1 p.2))).map Prod.snd)

/-! ## `sort_games` (view-pipeline sorting) -/

/-- The sort key of `sort_games._key`. -/
def sortKeyOf (sort_key : String) (g : Game) : String :=
  if sort_key = "name_asc" then ⟨lowerData g.name⟩
  else if sort_key = "name_desc" then ⟨lowerData g.name⟩
  else if sort_key = "year_asc" then (if g.year = "" then "9999" else g.year)
  else if sort_key = "year_desc" then (if g.year = "" then "0000" else g.year)
  else if sort_key = "developer_asc" then ⟨lowerData g.company⟩
  else if sort_key = "engine_asc" then ⟨lowerData g.engine⟩
  else ⟨lowerData g.name⟩

/-- The ascending key preorder used by `sorted(..., key=key)`. -/
def ascRel (key : Game → String) : Game → Game → Prop :=
  fun a b => lexLe (key a).data (key b).data = true

/-- The preorder of `sorted(..., key=key, reverse=True)`: CPython's stable
descending sort is the stable sort by the flipped key preorder. -/
def descRel (key : Game → String) : Game → Game → Prop :=
  fun a b => lexLe (key b).data (key a).data = true

instance (key : Game → String) : DecidableRel (ascRel key) :=
  fun _ _ => instDecidableEqBool _ _

instance (key : Game → String) : DecidableRel (descRel key) :=
  fun _ _ => instDecidableEqBool _ _

instance (key : Game → String) : IsTotal Game (ascRel key) :=
  ⟨fun a b => lexLe_total (key a).data (key b).data⟩

instance (key : Game → String) : IsTotal Game (descRel key) :=
  ⟨fun a b => lexLe_total (key b).data (key a).data⟩

instance (key : Game → String) : IsTrans Game (ascRel key) :=
  ⟨fun _ _ _ h₁ h₂ => lexLe_trans h₁ h₂⟩

instance (key : Game → String) : IsTrans Game (descRel key) :=
  ⟨fun _ _ _ h₁ h₂ => lexLe_trans h₂ h₁⟩

/-- `sorted(l, key=key, reverse=rev)`: the stable sort by the key preorder
(flipped when `rev`). -/
def pySorted (key : Game → String) (rev : Bool) (l : List Game) : List Game :=
  if rev then List.insertionSort (descRel key) l
  else List.insertionSort (ascRel key) l

/-- `sort_games(games, sort_key, favorites_first)` against an in-memory
library document (the source's `is_favorite` re-reads `library.json`). -/
def sort_games (lib : Library) (games : List Game) (sort_key : String)
    (favorites_first : Bool) : List Game :=
  let rev := sort_key = "name_desc" || sort_key = "year_desc"
  let result := pySorted (sortKeyOf sort_key) rev games
  if favorites_first then
    result.filter (fun g => is_favorite lib g.game_id) ++
      result.filter (fun g => !is_favorite lib g.game_id)
  else result

/-! ## Free-text search filter (`MainWindow._apply_filters_and_sort`) -/

/-- One record's match against an already lowercased/stripped query:
case-insensitive substring test on name, id, company, engine, or genre. -/
def matchesQuery (q : List Char) (g : Game) : Bool :=
  containsB q (lowerData g.name) || containsB q (lowerData g.game_id) ||
    containsB q (lowerData g.company) || containsB q (lowerData g.engine) ||
    containsB q (lowerData g.genre)

/-- The search step: `query = text.lower().strip(); if query: games =
[g for g in games if query in g.name.lower() or ...]`. -/
def search_filter (rawQuery : String) (games : List Game) : List Game :=
  let q := trimChars (lowerData rawQuery)
  if q = [] then games else games.filter (matchesQuery q)

/-! ## Grouping by engine (`MainWindow._populate_grouped`) -/

/-- Python string `<=` as a relation on `String`, for `sorted(keys)`. -/
def strAscRel : String → String → Prop :=
  fun a b => lexLe a.data b.data = true

instance : DecidableRel strAscRel := fun _ _ => instDecidableEqBool _ _

instance : IsTotal String strAscRel := ⟨fun a b => lexLe_total a.data b.data⟩

instance : IsTrans String strAscRel := ⟨fun _ _ _ h₁ h₂ => lexLe_trans h₁ h₂⟩

/-- The group label: `g.engine or _("Unknown")`. -/
def engineLabel (g : Game) : String :=
  if g.engine = "" then "Unknown" else g.engine

/-- `groups.setdefault(eng, []).append(g)`. -/
def addToGroup (d : List (String × List Game)) (k : String) (g : Game) :
    List (String × List Game) :=
  match alookup d k with
  | some _ => dmodify d k (fun l => l ++ [g])
  | none => d ++ [(k, [g])]

/-- The grouping dict, accumulated over the filtered+sorted sequence. -/
def buildGroups (games : List Game) : List (String × List Game) :=
  games.foldl (fun d g => addToGroup d (engineLabel g) g) []

/-- The order in which `_populate_grouped` emits groups:
`for engine_name in sorted(groups.keys())`, paired with each group's
member sequence. -/
def populate_grouped (games : List Game) : List (String × List Game) :=
  let groups := buildGroups games
  (List.insertionSort strAscRel (groups.map Prod.fst)).map
    (fun k => (k, (alookup groups k).getD []))

/-! ## General lemmas about stable sorting -/

section SortLemmas

variable {α K : Type} [DecidableEq K]

theorem filter_orderedInsert_key (r : α → α → Prop) [DecidableRel r]
    (key : α → K) (hrefl : ∀ a b, key a = key b → r a b) (k : K) :
    ∀ (l : List α) (a : α),
      (List.orderedInsert r a l).filter (fun g => key g = k) =
        if key a = k then a :: l.filter (fun g => key g = k)
        else l.filter (fun g => key g = k)
  | [], a => by
    by_cases ha : key a = k <;> simp [List.orderedInsert, ha]
  | b :: t, a => by
    simp only [List.orderedInsert]
    by_cases hr : r a b
    · rw [if_pos hr]
      by_cases ha : key a = k <;> simp [List.filter_cons, ha]
    · have hne : key a ≠ key b := fun he => hr (hrefl a b he)
      rw [if_neg hr]
      have ih := filter_orderedInsert_key r key hrefl k t a
      by_cases hb : key b = k
      · have ha : ¬key a = k := fun he => hne (he.trans hb.symm)
        simp [List.filter_cons, hb, ha, ih]
      · simp [List.filter_cons, hb, ih]

/-- Stability of insertion sort: for any relation that holds on key ties,
the subsequence of records with a given key value is untouched. -/
theorem filter_insertionSort_key (r : α → α → Prop) [DecidableRel r]
    (key : α → K) (hrefl : ∀ a b, key a = key b → r a b) (k : K) :
    ∀ l : List α,
      (List.insertionSort r l).filter (fun g => key g = k) =
        l.filter (fun g => key g = k)
  | [] => rfl
  | a :: t => by
    simp only [List.insertionSort]
    rw [filter_orderedInsert_key r key hrefl k _ a]
    by_cases h : key a = k <;>
      rw [filter_insertionSort_key r key hrefl k t] <;>
      simp [List.filter_cons, h]

/-- Two permuted lists, both pairwise-ordered by an asymmetric relation,
are equal (uniqueness of strictly sorted permutations). -/
theorem eq_of_perm_of_pairwise_asymm {R : α → α → Prop}
    (hasym : ∀ a b, R a b → ¬R b a) :
    ∀ {l₁ l₂ : List α}, l₁.Perm l₂ → l₁.Pairwise R → l₂.Pairwise R → l₁ = l₂
  | [], l₂, hp, _, _ => (hp.nil_eq).symm ▸ rfl
  | a :: t₁, l₂, hp, h₁, h₂ => by
    have ha : a ∈ l₂ := hp.mem_iff.mp (List.mem_cons_self a t₁)
    cases l₂ with
    | nil => simp at ha
    | cons b t₂ =>
      have hab : a = b := by
        by_contra hne
        have ha' : a ∈ t₂ := by
          rcases List.mem_cons.mp ha with h | h
          · exact absurd h hne
          · exact h
        have hRba : R b a := (List.pairwise_cons.mp h₂).1 a ha'
        have hb : b ∈ a :: t₁ := hp.symm.mem_iff.mp (List.mem_cons_self b t₂)
        have hb' : b ∈ t₁ := by
          rcases List.mem_cons.mp hb with h | h
          · exact absurd h.symm hne
          · exact h
        have hRab : R a b := (List.pairwise_cons.mp h₁).1 b hb'
        exact hasym a b hRab hRba
      subst hab
      have ht : t₁.Perm t₂ := hp.cons_inv
      rw [eq_of_perm_of_pairwise_asymm hasym ht
        (List.pairwise_cons.mp h₁).2 (List.pairwise_cons.mp h₂).2]

/-- Splitting a filter over a disjunction of disjoint predicates, up to
permutation. -/
theorem filter_or_perm (p q : α → Bool) (hdisj : ∀ a, ¬(p a = true ∧ q a = true)) :
    ∀ l : List α,
      (l.filter (fun a => p a || q a)).Perm (l.filter p ++ l.filter q)
  | [] => by simp
  | a :: t => by
    by_cases hp : p a = true
    · have hq : q a = false := by
        cases hqa : q a
        · rfl
        · exact absurd ⟨hp, hqa⟩ (hdisj a)
      simp only [List.filter, hp, hq, Bool.true_or]
      exact (filter_or_perm p q hdisj t).cons a
    · simp only [Bool.not_eq_true] at hp
      by_cases hq : q a = true
      · simp only [List.filter, hp, hq, Bool.false_or]
        exact ((filter_or_perm p q hdisj t).cons a).trans List.perm_middle.symm
      · simp only [Bool.not_eq_true] at hq
        simp only [List.filter, hp, hq, Bool.false_or]
        exact filter_or_perm p q hdisj t

end SortLemmas

/-! ## Reconciliation lemmas -/

/-- Key/value coherence of the `known` dict: every binding's value carries
the binding's key as its `game_id`. -/
def WFDict (d : List (String × Game)) : Prop := ∀ p ∈ d, p.2.game_id = p.1

theorem wfdict_dinsert {d : List (String × Game)} (hd : WFDict d) {k : String}
    {v : Game} (hv : v.game_id = k) : WFDict (dinsert d k v) := by
  intro p hp
  unfold dinsert at hp
  cases hl : alookup d k with
  | some w =>
    rw [hl] at hp
    simp only [List.mem_map] at hp
    obtain ⟨q, hq, hqe⟩ := hp
    by_cases h : q.1 = k
    · rw [if_pos h] at hqe; rw [← hqe]; exact hv
    · rw [if_neg h] at hqe; rw [← hqe]; exact hd q hq
  | none =>
    rw [hl] at hp
    rcases List.mem_append.mp hp with h | h
    · exact hd p h
    · rw [List.mem_singleton.mp h]; exact hv

theorem wfdict_dmodify {d : List (String × Game)} (hd : WFDict d) {k : String}
    {f : Game → Game} (hf : ∀ v, (f v).game_id = v.game_id) :
    WFDict (dmodify d k f) := by
  intro p hp
  unfold dmodify at hp
  simp only [List.mem_map] at hp
  obtain ⟨q, hq, hqe⟩ := hp
  by_cases h : q.1 = k
  · rw [if_pos h] at hqe; rw [← hqe]; simpa [hf] using hd q hq
  · rw [if_neg h] at hqe; rw [← hqe]; exact hd q hq

theorem wfdict_staticFold {l : List Game} :
    ∀ {d : List (String × Game)}, WFDict d → WFDict (l.foldl staticStep d) := by
  induction l with
  | nil => exact fun hd => hd
  | cons g t ih =>
    intro d hd
    exact ih (wfdict_dinsert hd rfl)

theorem wfdict_customFold {l : List Game} :
    ∀ {d : List (String × Game)}, WFDict d → WFDict (l.foldl customStep d) := by
  induction l with
  | nil => exact fun hd => hd
  | cons g t ih =>
    intro d hd
    refine ih ?_
    unfold customStep
    split_ifs with h
    · exact wfdict_dinsert hd rfl
    · exact hd

theorem wfdict_proberFold {l : List Game} :
    ∀ {d : List (String × Game)}, WFDict d → WFDict (l.foldl proberStep d) := by
  induction l with
  | nil => exact fun hd => hd
  | cons g t ih =>
    intro d hd
    refine ih ?_
    unfold proberStep
    cases alookup d g.game_id with
    | some w => exact wfdict_dmodify hd (fun v => rfl)
    | none => exact wfdict_dinsert hd rfl

theorem mem_keys_dinsert {α : Type} (d : List (String × α)) (k k' : String)
    (v : α) :
    k' ∈ (dinsert d k v).map Prod.fst ↔ k' ∈ d.map Prod.fst ∨ k' = k := by
  rw [keys_dinsert]
  cases hl : alookup d k with
  | some w =>
    have hk : k ∈ d.map Prod.fst := (alookup_isSome_iff d k).mp (by simp [hl])
    constructor
    · exact Or.inl
    · rintro (h | rfl)
      · exact h
      · exact hk
  | none => simp

theorem nodup_keys_staticFold {l : List Game} :
    ∀ {d : List (String × Game)}, (d.map Prod.fst).Nodup →
      ((l.foldl staticStep d).map Prod.fst).Nodup := by
  induction l with
  | nil => exact fun hd => hd
  | cons g t ih => exact fun hd => ih (nodupKeys_dinsert _ _ _ hd)

theorem nodup_keys_customFold {l : List Game} :
    ∀ {d : List (String × Game)}, (d.map Prod.fst).Nodup →
      ((l.foldl customStep d).map Prod.fst).Nodup := by
  induction l with
  | nil => exact fun hd => hd
  | cons g t ih =>
    intro d hd
    refine ih ?_
    unfold customStep
    split_ifs with h
    · exact nodupKeys_dinsert _ _ _ hd
    · exact hd

theorem nodup_keys_proberFold {l : List Game} :
    ∀ {d : List (String × Game)}, (d.map Prod.fst).Nodup →
      ((l.foldl proberStep d).map Prod.fst).Nodup := by
  induction l with
  | nil => exact fun hd => hd
  | cons g t ih =>
    intro d hd
    refine ih ?_
    unfold proberStep
    cases alookup d g.game_id with
    | some w => exact nodupKeys_dmodify _ _ _ hd
    | none => exact nodupKeys_dinsert _ _ _ hd

theorem mem_keys_staticFold (l : List Game) :
    ∀ (d : List (String × Game)) (k : String),
      k ∈ (l.foldl staticStep d).map Prod.fst ↔
        k ∈ d.map Prod.fst ∨ k ∈ l.map Game.game_id := by
  induction l with
  | nil => simp
  | cons g t ih =>
    intro d k
    simp only [List.foldl_cons, List.map_cons, List.mem_cons]
    rw [ih, staticStep, mem_keys_dinsert]
    tauto

theorem mem_keys_customFold (l : List Game) :
    ∀ (d : List (String × Game)) (k : String),
      k ∈ (l.foldl customStep d).map Prod.fst ↔
        k ∈ d.map Prod.fst ∨ (k ∈ l.map Game.game_id ∧ k ≠ "") := by
  induction l with
  | nil => simp
  | cons g t ih =>
    intro d k
    simp only [List.foldl_cons, List.map_cons, List.mem_cons]
    rw [ih]
    unfold customStep
    split_ifs with h
    · rw [mem_keys_dinsert]
      constructor
      · rintro ((hm | rfl) | hm)
        · exact Or.inl hm
        · exact Or.inr ⟨Or.inl rfl, h.1⟩
        · exact Or.inr ⟨Or.inr hm.1, hm.2⟩
      · rintro (hm | ⟨(rfl | hm), hne⟩)
        · exact Or.inl (Or.inl hm)
        · exact Or.inl (Or.inr rfl)
        · exact Or.inr ⟨hm, hne⟩
    · constructor
      · rintro (hm | hm)
        · exact Or.inl hm
        · exact Or.inr ⟨Or.inr hm.1, hm.2⟩
      · rintro (hm | ⟨(rfl | hm), hne⟩)
        · exact Or.inl hm
        · rcases not_and_or.mp h with h' | h'
          · exact absurd hne (by simpa using h')
          · refine Or.inl ((alookup_isSome_iff d g.game_id).mp ?_)
            cases hl : alookup d g.game_id
            · exact absurd hl (by simpa using h')
            · simp
        · exact Or.inr ⟨hm, hne⟩

theorem mem_keys_proberFold (l : List Game) :
    ∀ (d : List (String × Game)) (k : String),
      k ∈ (l.foldl proberStep d).map Prod.fst ↔
        k ∈ d.map Prod.fst ∨ k ∈ l.map Game.game_id := by
  induction l with
  | nil => simp
  | cons g t ih =>
    intro d k
    simp only [List.foldl_cons, List.map_cons, List.mem_cons]
    rw [ih]
    unfold proberStep
    cases hl : alookup d g.game_id with
    | some w =>
      rw [keys_dmodify]
      have hg : g.game_id ∈ d.map Prod.fst :=
        (alookup_isSome_iff d g.game_id).mp (by simp [hl])
      constructor
      · rintro (hm | hm)
        · exact Or.inl hm
        · exact Or.inr (Or.inr hm)
      · rintro (hm | (rfl | hm))
        · exact Or.inl hm
        · exact Or.inl hg
        · exact Or.inr hm
    | none =>
      rw [mem_keys_dinsert]
      tauto

theorem staticFold_alookup_fresh (l : List Game) :
    ∀ (d : List (String × Game)) (k : String), k ∉ l.map Game.game_id →
      alookup (l.foldl staticStep d) k = alookup d k := by
  induction l with
  | nil => exact fun d k _ => rfl
  | cons g t ih =>
    intro d k hk
    simp only [List.map_cons, List.mem_cons, not_or] at hk
    rw [List.foldl_cons, ih _ k hk.2, staticStep,
      alookup_dinsert_ne d g.game_id k g hk.1]

theorem staticFold_alookup (static : List Game)
    (h : (static.map Game.game_id).Nodup) {g : Game} (hg : g ∈ static) :
    alookup (static.foldl staticStep []) g.game_id = some g := by
  obtain ⟨s, t, rfl⟩ := List.append_of_mem hg
  have hfr : g.game_id ∉ t.map Game.game_id := by
    have h' : ((g :: t).map Game.game_id).Nodup := by
      rw [List.map_append] at h
      exact h.of_append_right
    simpa using (List.nodup_cons.mp h').1
  rw [List.foldl_append, List.foldl_cons, staticFold_alookup_fresh t _ _ hfr,
    staticStep, alookup_dinsert_self]

theorem customFold_alookup_some (l : List Game) :
    ∀ (d : List (String × Game)) (k : String) (v : Game),
      alookup d k = some v → alookup (l.foldl customStep d) k = some v := by
  induction l with
  | nil => exact fun d k v hv => hv
  | cons g t ih =>
    intro d k v hv
    rw [List.foldl_cons]
    refine ih _ k v ?_
    unfold customStep
    split_ifs with h
    · have hne : k ≠ g.game_id := by
        intro he
        rw [← he, hv] at h
        exact Option.some_ne_none v h.2
      rw [alookup_dinsert_ne d g.game_id k g hne]
      exact hv
    · exact hv

/-- The record update a prober overlay performs on a present record. -/
def installMark (p : String) (v : Game) : Game :=
  { v with installed := true, path := p }

theorem installMark_idem (p : String) (v : Game) :
    installMark p (installMark p v) = installMark p v := rfl

theorem proberFold_alookup (l : List Game) :
    ∀ (d : List (String × Game)) (k : String) (v : Game),
      (∀ g ∈ l, g.path = "") → alookup d k = some v →
      alookup (l.foldl proberStep d) k =
        some (if k ∈ l.map Game.game_id then installMark "" v else v) := by
  induction l with
  | nil => intro d k v _ hv; simpa using hv
  | cons g t ih =>
    intro d k v hp hv
    have hgp : g.path = "" := hp g (List.mem_cons_self g t)
    have hpt : ∀ g' ∈ t, g'.path = "" := fun g' hg' =>
      hp g' (List.mem_cons_of_mem g hg')
    rw [List.foldl_cons]
    by_cases hk : g.game_id = k
    · have hvk : alookup d g.game_id = some v := by rw [hk]; exact hv
      have hstep : alookup (proberStep d g) k = some (installMark "" v) := by
        unfold proberStep
        rw [hvk, ← hk, alookup_dmodify_self, hvk]
        simp [installMark, hgp]
      rw [ih _ k (installMark "" v) hpt hstep]
      have hmem : k ∈ (g :: t).map Game.game_id := by
        simp [← hk]
      rw [if_pos hmem]
      split_ifs with h
      · rw [installMark_idem]
      · rfl
    · have hstep : alookup (proberStep d g) k = some v := by
        unfold proberStep
        cases hl : alookup d g.game_id with
        | some w => rw [alookup_dmodify_ne _ _ _ _ (Ne.symm hk)]; exact hv
        | none => rw [alookup_dinsert_ne _ _ _ _ (Ne.symm hk)]; exact hv
      rw [ih _ k v hpt hstep]
      have : (k ∈ (g :: t).map Game.game_id) ↔ (k ∈ t.map Game.game_id) := by
        simp [Ne.symm hk]
      simp only [this]

/-! ## Dict-update lemmas for export / import -/

theorem map_replace_id {α : Type} (t : List (String × α)) (k : String) (v : α)
    (h : k ∉ t.map Prod.fst) :
    t.map (fun p => if p.1 = k then (k, v) else p) = t := by
  induction t with
  | nil => rfl
  | cons p t ih =>
    simp only [List.map_cons, List.mem_cons, not_or] at h
    have hp : p.1 ≠ k := fun he => h.1 he.symm
    simp only [List.map_cons, if_neg hp]
    rw [ih h.2]

theorem map_replace_self {α : Type} :
    ∀ (d : List (String × α)) (k : String) (v : α),
      (d.map Prod.fst).Nodup → alookup d k = some v →
      d.map (fun p => if p.1 = k then (k, v) else p) = d
  | [], k, v, _, hl => by simp [alookup] at hl
  | p :: t, k, v, hnd, hl => by
    simp only [List.map_cons, List.nodup_cons] at hnd
    by_cases hp : p.1 = k
    · simp only [alookup, hp, if_true, Option.some.injEq] at hl
      have hpv : p = (k, v) := by cases p; simp_all
      have hfr : k ∉ t.map Prod.fst := hp ▸ hnd.1
      simp only [List.map_cons, if_pos hp, map_replace_id t k v hfr]
      rw [hpv]
    · simp only [alookup, hp, if_false] at hl
      simp only [List.map_cons, if_neg hp]
      rw [map_replace_self t k v hnd.2 hl]

theorem dinsert_self_of_alookup {α : Type} (d : List (String × α)) (k : String)
    (v : α) (hnd : (d.map Prod.fst).Nodup) (hl : alookup d k = some v) :
    dinsert d k v = d := by
  unfold dinsert
  rw [hl]
  exact map_replace_self d k v hnd hl

theorem dictUpdate_of_alookup (entries : List (String × GameState)) :
    ∀ d : List (String × GameState), (d.map Prod.fst).Nodup →
      (∀ p ∈ entries, alookup d p.1 = some p.2) → dictUpdate d entries = d := by
  induction entries with
  | nil => exact fun d _ _ => rfl
  | cons p t ih =>
    intro d hnd hmem
    unfold dictUpdate at ih ⊢
    rw [List.foldl_cons,
      dinsert_self_of_alookup d p.1 p.2 hnd (hmem p (List.mem_cons_self p t))]
    exact ih d hnd (fun q hq => hmem q (List.mem_cons_of_mem p hq))

theorem dictUpdate_self (d : List (String × GameState))
    (hnd : (d.map Prod.fst).Nodup) : dictUpdate d d = d :=
  dictUpdate_of_alookup d d hnd (fun p hp => alookup_of_mem_nodup d p hp hnd)

/-! ## Grouping lemmas -/

theorem alookup_addToGroup (d : List (String × List Game)) (k k' : String)
    (g : Game) :
    alookup (addToGroup d k' g) k =
      if k = k' then some ((alookup d k).getD [] ++ [g]) else alookup d k := by
  by_cases hk : k = k'
  · subst hk
    rw [if_pos rfl]
    unfold addToGroup
    cases hl : alookup d k with
    | some l => rw [alookup_dmodify_self, hl]; simp
    | none => rw [alookup_append, hl]; simp [alookup]
  · rw [if_neg hk]
    unfold addToGroup
    cases hl : alookup d k' with
    | some l => exact alookup_dmodify_ne d k' k _ hk
    | none =>
      rw [alookup_append]
      cases hl' : alookup d k with
      | some w => simp
      | none => simp [alookup, Ne.symm hk]

theorem groupsFold_alookup (games : List Game) :
    ∀ (acc : List (String × List Game)) (k : String),
      alookup (games.foldl (fun d g => addToGroup d (engineLabel g) g) acc) k =
        if alookup acc k = none ∧
            games.filter (fun g => engineLabel g = k) = [] then none
        else some ((alookup acc k).getD [] ++
          games.filter (fun g => engineLabel g = k)) := by
  induction games with
  | nil =>
    intro acc k
    cases hl : alookup acc k with
    | none => simp [hl]
    | some l => simp [hl]
  | cons g t ih =>
    intro acc k
    rw [List.foldl_cons, ih]
    by_cases hg : engineLabel g = k
    · have hstep : alookup (addToGroup acc (engineLabel g) g) k =
          some ((alookup acc k).getD [] ++ [g]) := by
        rw [alookup_addToGroup, if_pos hg.symm]
      rw [hstep]
      have hfil : (g :: t).filter (fun g => engineLabel g = k) =
          g :: t.filter (fun g => engineLabel g = k) := by
        rw [List.filter_cons, if_pos (by simp [hg])]
      rw [hfil]
      simp [List.append_assoc]
    · have hstep : alookup (addToGroup acc (engineLabel g) g) k =
          alookup acc k := by
        rw [alookup_addToGroup, if_neg (fun he => hg he.symm)]
      rw [hstep]
      have hfil : (g :: t).filter (fun g => engineLabel g = k) =
          t.filter (fun g => engineLabel g = k) := by
        rw [List.filter_cons, if_neg (by simp [hg])]
      rw [hfil]

theorem buildGroups_alookup (games : List Game) (k : String) :
    alookup (buildGroups games) k =
      if games.filter (fun g => engineLabel g = k) = [] then none
      else some (games.filter (fun g => engineLabel g = k)) := by
  unfold buildGroups
  rw [groupsFold_alookup]
  simp [alookup]

theorem buildGroups_alookup_getD (games : List Game) (k : String) :
    (alookup (buildGroups games) k).getD [] =
      games.filter (fun g => engineLabel g = k) := by
  rw [buildGroups_alookup]
  split_ifs with h
  · simp [h]
  · simp

theorem nodup_keys_buildGroups (games : List Game) :
    ((buildGroups games).map Prod.fst).Nodup := by
  unfold buildGroups
  generalize hacc : ([] : List (String × List Game)) = acc
  have hnd : (acc.map Prod.fst).Nodup := by rw [← hacc]; simp
  clear hacc
  induction games generalizing acc with
  | nil => exact hnd
  | cons g t ih =>
    rw [List.foldl_cons]
    refine ih _ ?_
    unfold addToGroup
    cases hl : alookup acc (engineLabel g) with
    | some l => rw [keys_dmodify]; exact hnd
    | none =>
      have hk : engineLabel g ∉ acc.map Prod.fst :=
        (alookup_eq_none_iff acc (engineLabel g)).mp hl
      rw [List.map_append, List.nodup_append]
      refine ⟨hnd, by simp, fun a ha hak => ?_⟩
      simp only [List.map_cons, List.map_nil, List.mem_singleton] at hak
      exact hk (hak ▸ ha)

theorem count_group (a : Game) (games : List Game) (k : String) :
    List.count a (games.filter (fun g => engineLabel g = k)) =
      if engineLabel a = k then List.count a games else 0 := by
  split_ifs with h
  · exact List.count_filter (by simp [h])
  · rw [List.count_eq_zero]
    intro hmem
    exact h (by simpa using (List.mem_filter.mp hmem).2)

theorem sum_map_ite_single {ks : List String} (hnd : ks.Nodup) (x : String)
    (c : ℕ) (hx : x ∈ ks) :
    (ks.map (fun k => if x = k then c else 0)).sum = c := by
  induction ks with
  | nil => simp at hx
  | cons k t ih =>
    simp only [List.nodup_cons] at hnd
    by_cases hk : x = k
    · subst hk
      simp only [List.map_cons, if_pos rfl, List.sum_cons]
      have hzero : (t.map (fun k => if x = k then c else 0)).sum = 0 :=
        List.sum_eq_zero (by
          intro y hy
          simp only [List.mem_map] at hy
          obtain ⟨k', hk', rfl⟩ := hy
          have hxk : x ≠ k' := fun he => hnd.1 (by rw [he]; exact hk')
          rw [if_neg hxk])
      rw [hzero]
      simp
    · rcases List.mem_cons.mp hx with h | h
      · exact absurd h hk
      · simp only [List.map_cons, if_neg hk, List.sum_cons, Nat.zero_add]
        exact ih hnd.2 h

theorem join_groups_perm (games : List Game) (ks : List String)
    (hnd : ks.Nodup) (hcov : ∀ g ∈ games, engineLabel g ∈ ks) :
    (ks.map (fun k => games.filter (fun g => engineLabel g = k))).flatten.Perm
      games := by
  rw [List.perm_iff_count]
  intro a
  rw [List.count_flatten, List.map_map]
  have hcomp : ∀ k, (List.count a ∘ fun k =>
      games.filter (fun g => engineLabel g = k)) k =
      if engineLabel a = k then List.count a games else 0 := by
    intro k
    simp only [Function.comp_apply]
    exact count_group a games k
  rw [List.map_congr_left (fun k _ => hcomp k)]
  by_cases ha : a ∈ games
  · have hsum := sum_map_ite_single hnd (engineLabel a) (List.count a games)
      (hcov a ha)
    exact hsum
  · have hz : List.count a games = 0 := List.count_eq_zero.mpr ha
    rw [hz]
    exact List.sum_eq_zero (by
      intro y hy
      simp only [List.mem_map] at hy
      obtain ⟨k', _, rfl⟩ := hy
      split_ifs <;> rfl)

/-! ## Small auxiliary lemmas -/

theorem string_data_inj {a b : String} (h : a.data = b.data) : a = b := by
  cases a; cases b; exact congrArg String.mk h

theorem pySorted_perm (key : Game → String) (rev : Bool) (l : List Game) :
    (pySorted key rev l).Perm l := by
  unfold pySorted
  split_ifs <;> exact List.perm_insertionSort _ _

theorem pySorted_filter_key (key : Game → String) (rev : Bool) (k : String)
    (l : List Game) :
    (pySorted key rev l).filter (fun g => key g = k) =
      l.filter (fun g => key g = k) := by
  unfold pySorted
  split_ifs
  · exact filter_insertionSort_key (descRel key) key
      (fun a b he => by simp only [descRel, he, lexLe_refl]) k l
  · exact filter_insertionSort_key (ascRel key) key
      (fun a b he => by simp only [ascRel, he, lexLe_refl]) k l

theorem sortKeyOf_year_asc (g : Game) :
    sortKeyOf "year_asc" g = if g.year = "" then "9999" else g.year := rfl

theorem sortKeyOf_year_desc (g : Game) :
    sortKeyOf "year_desc" g = if g.year = "" then "0000" else g.year := rfl

theorem sortKeyOf_name_asc (g : Game) :
    sortKeyOf "name_asc" g = ⟨lowerData g.name⟩ := rfl

theorem sortKeyOf_name_desc (g : Game) :
    sortKeyOf "name_desc" g = ⟨lowerData g.name⟩ := rfl

theorem sort_games_plain (lib : Library) (games : List Game) (sk : String) :
    sort_games lib games sk false =
      pySorted (sortKeyOf sk) (sk = "name_desc" || sk = "year_desc") games :=
  rfl

theorem sort_games_year_asc (lib : Library) (games : List Game) :
    sort_games lib games "year_asc" false =
      List.insertionSort (ascRel (sortKeyOf "year_asc")) games := rfl

theorem sort_games_year_desc (lib : Library) (games : List Game) :
    sort_games lib games "year_desc" false =
      List.insertionSort (descRel (sortKeyOf "year_desc")) games := rfl

theorem sort_games_name_asc (lib : Library) (games : List Game) :
    sort_games lib games "name_asc" false =
      List.insertionSort (ascRel (sortKeyOf "name_asc")) games := rfl

theorem sort_games_name_desc (lib : Library) (games : List Game) :
    sort_games lib games "name_desc" false =
      List.insertionSort (descRel (sortKeyOf "name_desc")) games := rfl

/-! ## Claim theorems -/

/-- C3: Exporting a library document and then importing the exported file,
with no modification in between, reproduces the same `favorite`,
`total_play_time`, and `last_played` values for every game id that had a
per-game entry before the export. -/
theorem export_import_roundtrip (lib : Library) (games : List Game)
    (id : String) (s : GameState)
    (hnd : (lib.games.map Prod.fst).Nodup)
    (hs : alookup lib.games id = some s) :
    ∃ s' : GameState,
      alookup (import_library_json lib
        (export_library_json lib games)).1.games id = some s' ∧
      s'.favorite = s.favorite ∧ s'.total_play_time = s.total_play_time ∧
      s'.last_played = s.last_played := by
  refine ⟨s, ?_, rfl, rfl, rfl⟩
  simp only [import_library_json, export_library_json]
  rw [dictUpdate_self lib.games hnd]
  exact hs

theorem export_import_roundtrip_witness :
    ∃ s' : GameState,
      alookup (import_library_json ⟨[("dig", ⟨true, 7, 100, none⟩)], []⟩
        (export_library_json ⟨[("dig", ⟨true, 7, 100, none⟩)], []⟩
          [])).1.games "dig" = some s' ∧
      s'.favorite = (⟨true, 7, 100, none⟩ : GameState).favorite ∧
      s'.total_play_time = (⟨true, 7, 100, none⟩ : GameState).total_play_time ∧
      s'.last_played = (⟨true, 7, 100, none⟩ : GameState).last_played :=
  export_import_roundtrip ⟨[("dig", ⟨true, 7, 100, none⟩)], []⟩ []
    "dig" ⟨true, 7, 100, none⟩ (by decide) (by decide)

/-- C4: `record_play_end(id)` with no stored `play_start` (or a stored `0`)
leaves `total_play_time` unchanged but still sets `last_played` to the
current time; with a nonzero stored `play_start` it adds `(now - play_start)`
to `total_play_time`, removes `play_start`, and sets `last_played`. -/
theorem record_play_end_spec (lib : Library) (game_id : String)
    (tElapsed tEnd : Int) :
    (((alookup lib.games game_id).getD emptyGS).play_start.getD 0 = 0 →
      alookup (record_play_end lib game_id tElapsed tEnd).games game_id =
        some { (alookup lib.games game_id).getD emptyGS with
               play_start := none, last_played := tEnd }) ∧
    (∀ s : Int, ((alookup lib.games game_id).getD emptyGS).play_start = some s →
      s ≠ 0 →
      alookup (record_play_end lib game_id tElapsed tEnd).games game_id =
        some { (alookup lib.games game_id).getD emptyGS with
               play_start := none,
               total_play_time :=
                 ((alookup lib.games game_id).getD emptyGS).total_play_time +
                   (tElapsed - s),
               last_played := tEnd }) := by
  constructor
  · intro h0
    unfold record_play_end
    rw [alookup_dinsert_self]
    rw [if_neg (by simpa using h0)]
  · intro s hs hs0
    unfold record_play_end
    rw [alookup_dinsert_self]
    rw [hs]
    rw [if_pos (by simpa using hs0)]
    simp

theorem record_play_end_spec_witness :
    (alookup (record_play_end ⟨[("dig", ⟨false, 0, 40, none⟩)], []⟩
        "dig" 50 60).games "dig" =
      some ⟨false, 60, 40, none⟩) ∧
    (alookup (record_play_end ⟨[("dig", ⟨false, 0, 40, some 20⟩)], []⟩
        "dig" 50 60).games "dig" =
      some ⟨false, 60, 70, none⟩) := by
  constructor
  · have h := (record_play_end_spec ⟨[("dig", ⟨false, 0, 40, none⟩)], []⟩
      "dig" 50 60).1 (by decide)
    exact h
  · have h := (record_play_end_spec ⟨[("dig", ⟨false, 0, 40, some 20⟩)], []⟩
      "dig" 50 60).2 20 (by decide) (by decide)
    exact h

/-- C10: `toggle_favorite`, `record_play_start`, and `record_play_end`
modify only the per-game entry stored under their id: every other id's
entry and the `custom_games` list are unchanged. -/
theorem library_ops_frame (lib : Library) (game_id other : String)
    (now tElapsed tEnd : Int) (h : other ≠ game_id) :
    (alookup (toggle_favorite lib game_id).2.games other =
        alookup lib.games other ∧
      (toggle_favorite lib game_id).2.custom_games = lib.custom_games) ∧
    (alookup (record_play_start lib game_id now).games other =
        alookup lib.games other ∧
      (record_play_start lib game_id now).custom_games = lib.custom_games) ∧
    (alookup (record_play_end lib game_id tElapsed tEnd).games other =
        alookup lib.games other ∧
      (record_play_end lib game_id tElapsed tEnd).custom_games =
        lib.custom_games) := by
  refine ⟨⟨?_, rfl⟩, ⟨?_, rfl⟩, ⟨?_, rfl⟩⟩
  · unfold toggle_favorite
    exact alookup_dinsert_ne _ _ _ _ h
  · unfold record_play_start
    exact alookup_dinsert_ne _ _ _ _ h
  · unfold record_play_end
    exact alookup_dinsert_ne _ _ _ _ h

theorem library_ops_frame_witness :
    (alookup (toggle_favorite ⟨[("dig", ⟨true, 1, 2, none⟩)], []⟩
          "monkey").2.games "dig" =
        alookup (⟨[("dig", ⟨true, 1, 2, none⟩)], []⟩ : Library).games "dig" ∧
      (toggle_favorite ⟨[("dig", ⟨true, 1, 2, none⟩)], []⟩
          "monkey").2.custom_games =
        (⟨[("dig", ⟨true, 1, 2, none⟩)], []⟩ : Library).custom_games) ∧
    (alookup (record_play_start ⟨[("dig", ⟨true, 1, 2, none⟩)], []⟩
          "monkey" 9).games "dig" =
        alookup (⟨[("dig", ⟨true, 1, 2, none⟩)], []⟩ : Library).games "dig" ∧
      (record_play_start ⟨[("dig", ⟨true, 1, 2, none⟩)], []⟩
          "monkey" 9).custom_games =
        (⟨[("dig", ⟨true, 1, 2, none⟩)], []⟩ : Library).custom_games) ∧
    (alookup (record_play_end ⟨[("dig", ⟨true, 1, 2, none⟩)], []⟩
          "monkey" 9 10).games "dig" =
        alookup (⟨[("dig", ⟨true, 1, 2, none⟩)], []⟩ : Library).games "dig" ∧
      (record_play_end ⟨[("dig", ⟨true, 1, 2, none⟩)], []⟩
          "monkey" 9 10).custom_games =
        (⟨[("dig", ⟨true, 1, 2, none⟩)], []⟩ : Library).custom_games) :=
  library_ops_frame ⟨[("dig", ⟨true, 1, 2, none⟩)], []⟩ "monkey" "dig"
    9 9 10 (by decide)

/-- C8: with favorites-first enabled, `sort_games` returns the plainly
sorted sequence re-partitioned as favorites (in sorted order) followed by
non-favorites (in sorted order) — a stable partition — and the result is a
permutation of the plainly sorted sequence and of the input. -/
theorem sort_games_favorites_first (lib : Library) (games : List Game)
    (sort_key : String) :
    sort_games lib games sort_key true =
      (sort_games lib games sort_key false).filter
        (fun g => is_favorite lib g.game_id) ++
      (sort_games lib games sort_key false).filter
        (fun g => !is_favorite lib g.game_id) ∧
    (sort_games lib games sort_key true).Perm
      (sort_games lib games sort_key false) ∧
    (sort_games lib games sort_key true).Perm games := by
  refine ⟨rfl, ?_, ?_⟩
  · exact List.filter_append_perm _ _
  · exact (List.filter_append_perm _ _).trans
      (pySorted_perm (sortKeyOf sort_key) _ games)

/-- Records with an empty year come after all records with a year between
"1987" and "2009" in the list `l`. -/
def missingYearAfter (l : List Game) : Prop :=
  ∀ (i j : ℕ) (hi : i < l.length) (hj : j < l.length),
    (l.get ⟨i, hi⟩).year = "" →
    lexLe "1987".data (l.get ⟨j, hj⟩).year.data = true →
    lexLe (l.get ⟨j, hj⟩).year.data "2009".data = true →
    j < i

/-- C5: under both `year_asc` and `year_desc`, every record with an empty
year is placed after all records whose year lies between "1987" and
"2009". -/
theorem year_sort_missing_last (lib : Library) (games : List Game) :
    missingYearAfter (sort_games lib games "year_asc" false) ∧
    missingYearAfter (sort_games lib games "year_desc" false) := by
  constructor
  · rw [sort_games_year_asc]
    intro i j hi hj hyi h87 h09
    have hpair : List.Pairwise (ascRel (sortKeyOf "year_asc"))
        (List.insertionSort (ascRel (sortKeyOf "year_asc")) games) :=
      List.sorted_insertionSort _ _
    set ra := List.insertionSort (ascRel (sortKeyOf "year_asc")) games
    have hyj : (ra.get ⟨j, hj⟩).year ≠ "" := by
      intro he
      rw [he] at h87
      exact absurd h87 (by decide)
    have hne : i ≠ j := by
      intro he
      subst he
      exact hyj hyi
    have hnlt : ¬i < j := by
      intro hij
      have hrel := List.pairwise_iff_get.mp hpair ⟨i, hi⟩ ⟨j, hj⟩ hij
      unfold ascRel at hrel
      rw [sortKeyOf_year_asc, sortKeyOf_year_asc, if_pos hyi, if_neg hyj]
        at hrel
      have := lexLt_trans (lexLt_of_lexLe_of_ne (lexLe_trans hrel h09)
        (by decide)) (by decide : lexLt "2009".data "9999".data = true)
      rw [lexLt_irrefl] at this
      exact absurd this (by decide)
    omega
  · rw [sort_games_year_desc]
    intro i j hi hj hyi h87 h09
    have hpair : List.Pairwise (descRel (sortKeyOf "year_desc"))
        (List.insertionSort (descRel (sortKeyOf "year_desc")) games) :=
      List.sorted_insertionSort _ _
    set rd := List.insertionSort (descRel (sortKeyOf "year_desc")) games
    have hyj : (rd.get ⟨j, hj⟩).year ≠ "" := by
      intro he
      rw [he] at h87
      exact absurd h87 (by decide)
    have hne : i ≠ j := by
      intro he
      subst he
      exact hyj hyi
    have hnlt : ¬i < j := by
      intro hij
      have hrel := List.pairwise_iff_get.mp hpair ⟨i, hi⟩ ⟨j, hj⟩ hij
      unfold descRel at hrel
      rw [sortKeyOf_year_desc, sortKeyOf_year_desc, if_pos hyi, if_neg hyj]
        at hrel
      have := lexLt_trans (lexLt_of_lexLe_of_ne (lexLe_trans h87 hrel)
        (by decide)) (by decide : lexLt "0000".data "1987".data = true)
      rw [lexLt_irrefl] at this
      exact absurd this (by decide)
    omega

/-- A record with an empty year (sorts last). -/
def gNoYear : Game := knownGame "noyear" "Alpha" "scumm" "" "" "" "" "" "" ""

/-- A record with year 1995. -/
def gMidYear : Game := knownGame "mid" "Beta" "agi" "" "1995" "" "" "" "" ""

theorem year_sort_missing_last_witness : (0 : ℕ) < 1 ∧ (0 : ℕ) < 1 :=
  ⟨(year_sort_missing_last ⟨[], []⟩ [gNoYear, gMidYear]).1 1 0
      (by decide) (by decide) (by decide) (by decide) (by decide),
   (year_sort_missing_last ⟨[], []⟩ [gNoYear, gMidYear]).2 1 0
      (by decide) (by decide) (by decide) (by decide) (by decide)⟩

/-- C6: `sort_games` is stable for every sort key (equal-key records keep
their input order, in both directions, stated as invariance of every
equal-key subsequence), and on an input with pairwise-distinct
case-insensitive names, `name_desc` yields exactly the reverse of
`name_asc`. -/
theorem sort_games_stable (lib : Library) (games : List Game)
    (sort_key : String) (k : String) :
    (sort_games lib games sort_key false).filter
        (fun g => sortKeyOf sort_key g = k) =
      games.filter (fun g => sortKeyOf sort_key g = k) ∧
    ((games.map (fun g => (⟨lowerData g.name⟩ : String))).Nodup →
      sort_games lib games "name_desc" false =
        (sort_games lib games "name_asc" false).reverse) := by
  constructor
  · rw [sort_games_plain]
    exact pySorted_filter_key (sortKeyOf sort_key) _ k games
  · intro hnd
    rw [sort_games_name_desc, sort_games_name_asc]
    have hfun : (fun g => (⟨lowerData g.name⟩ : String)) =
        sortKeyOf "name_asc" := funext fun g => rfl
    rw [hfun] at hnd
    set nk := sortKeyOf "name_asc" with hnkdef
    have hkeyeq : sortKeyOf "name_desc" = nk := funext fun g => rfl
    rw [hkeyeq]
    set A := List.insertionSort (ascRel nk) games with hA
    set D := List.insertionSort (descRel nk) games with hD
    have hpermA : A.Perm games := List.perm_insertionSort _ _
    have hpermD : D.Perm games := List.perm_insertionSort _ _
    have hasym : ∀ a b : Game,
        lexLt (nk b).data (nk a).data = true →
        ¬lexLt (nk a).data (nk b).data = true := by
      intro a b h h'
      rw [lexLt_asymm h] at h'
      exact absurd h' (by decide)
    have hndD : (D.map nk).Nodup :=
      ((hpermD.map nk).nodup_iff).mpr hnd
    have hndA : (A.map nk).Nodup :=
      ((hpermA.map nk).nodup_iff).mpr hnd
    have hneD : D.Pairwise (fun a b => nk a ≠ nk b) :=
      List.pairwise_map.mp hndD
    have hneA : A.Pairwise (fun a b => nk a ≠ nk b) :=
      List.pairwise_map.mp hndA
    have hpD : D.Pairwise (descRel nk) := List.sorted_insertionSort _ _
    have hpA : A.Pairwise (ascRel nk) := List.sorted_insertionSort _ _
    have hRD : D.Pairwise (fun a b => lexLt (nk b).data (nk a).data = true) :=
      (hpD.and hneD).imp (fun h =>
        lexLt_of_lexLe_of_ne h.1 (fun hd => h.2 (string_data_inj hd).symm))
    have hRA : A.Pairwise (fun a b => lexLt (nk a).data (nk b).data = true) :=
      (hpA.and hneA).imp (fun h =>
        lexLt_of_lexLe_of_ne h.1 (fun hd => h.2 (string_data_inj hd)))
    have hRArev : A.reverse.Pairwise
        (fun a b => lexLt (nk b).data (nk a).data = true) :=
      List.pairwise_reverse.mpr hRA
    exact eq_of_perm_of_pairwise_asymm hasym
      ((hpermD.trans hpermA.symm).trans A.reverse_perm.symm) hRD hRArev

theorem sort_games_stable_witness :
    ((sort_games ⟨[], []⟩ [gMidYear, gNoYear] "engine_asc" false).filter
        (fun g => sortKeyOf "engine_asc" g = "agi") =
      [gMidYear, gNoYear].filter (fun g => sortKeyOf "engine_asc" g = "agi")) ∧
    (sort_games ⟨[], []⟩ [gMidYear, gNoYear] "name_desc" false =
      (sort_games ⟨[], []⟩ [gMidYear, gNoYear] "name_asc" false).reverse) :=
  ⟨(sort_games_stable ⟨[], []⟩ [gMidYear, gNoYear] "engine_asc" "agi").1,
   (sort_games_stable ⟨[], []⟩ [gMidYear, gNoYear] "engine_asc" "agi").2
     (by decide)⟩

/-- C7: grouping partitions the filtered+sorted sequence by engine label
(empty engine → literal "Unknown"), groups are emitted in strictly
ascending alphabetical label order, each group is exactly the label's
subsequence of the input (input order preserved), and the groups together
are a permutation of the input. -/
theorem populate_grouped_spec (games : List Game) :
    ((populate_grouped games).map Prod.fst).Pairwise
        (fun a b => lexLt a.data b.data = true) ∧
    (∀ (k : String) (gl : List Game), (k, gl) ∈ populate_grouped games →
      gl = games.filter (fun g => engineLabel g = k)) ∧
    ((populate_grouped games).map Prod.snd).flatten.Perm games ∧
    (∀ g ∈ games, ∃ gl, (engineLabel g, gl) ∈ populate_grouped games ∧
      g ∈ gl) ∧
    (∀ g ∈ games, g.engine = "" →
      ∃ gl, (("Unknown" : String), gl) ∈ populate_grouped games ∧ g ∈ gl) := by
  have hpg : populate_grouped games =
      (List.insertionSort strAscRel ((buildGroups games).map Prod.fst)).map
        (fun k => (k, (alookup (buildGroups games) k).getD [])) := rfl
  set skeys := List.insertionSort strAscRel ((buildGroups games).map Prod.fst)
    with hskeys
  have hmapfst : (populate_grouped games).map Prod.fst = skeys := by
    rw [hpg, List.map_map]
    exact List.map_id skeys
  have hsk_perm : skeys.Perm ((buildGroups games).map Prod.fst) :=
    List.perm_insertionSort _ _
  have hnodup_sk : skeys.Nodup :=
    (hsk_perm.nodup_iff).mpr (nodup_keys_buildGroups games)
  have hpairwise_le : skeys.Pairwise strAscRel := List.sorted_insertionSort _ _
  have hcov : ∀ g ∈ games, engineLabel g ∈ skeys := by
    intro g hg
    refine hsk_perm.mem_iff.mpr ?_
    refine (alookup_isSome_iff _ _).mp ?_
    rw [buildGroups_alookup]
    rw [if_neg (List.ne_nil_of_mem (List.mem_filter.mpr ⟨hg, by simp⟩))]
    simp
  have hpartd : ∀ g ∈ games,
      ∃ gl, (engineLabel g, gl) ∈ populate_grouped games ∧ g ∈ gl := by
    intro g hg
    refine ⟨(alookup (buildGroups games) (engineLabel g)).getD [], ?_, ?_⟩
    · rw [hpg]
      exact List.mem_map_of_mem _ (hcov g hg)
    · rw [buildGroups_alookup_getD]
      exact List.mem_filter.mpr ⟨hg, by simp⟩
  refine ⟨?_, ?_, ?_, hpartd, ?_⟩
  · rw [hmapfst]
    exact (hpairwise_le.and hnodup_sk).imp
      (fun h => lexLt_of_lexLe_of_ne h.1 (fun hd => h.2 (string_data_inj hd)))
  · intro k gl hmem
    rw [hpg] at hmem
    simp only [List.mem_map, Prod.mk.injEq] at hmem
    obtain ⟨k', _, rfl, rfl⟩ := hmem
    exact buildGroups_alookup_getD games k'
  · have hsnd : (populate_grouped games).map Prod.snd =
        skeys.map (fun k => games.filter (fun g => engineLabel g = k)) := by
      rw [hpg, List.map_map]
      exact List.map_congr_left (fun k _ => buildGroups_alookup_getD games k)
    rw [hsnd]
    exact join_groups_perm games skeys hnodup_sk hcov
  · intro g hg he
    have hl : engineLabel g = "Unknown" := by rw [engineLabel, if_pos he]
    obtain ⟨gl, hmem, hgl⟩ := hpartd g hg
    rw [hl] at hmem
    exact ⟨gl, hmem, hgl⟩

theorem populate_grouped_spec_witness :
    [gMidYear] = [gMidYear, gNoYear].filter
      (fun g => engineLabel g = "agi") :=
  (populate_grouped_spec [gMidYear, gNoYear]).2.1 "agi" [gMidYear] (by decide)

/-- The `KNOWN_GAMES` entry for "Sam & Max Hit the Road". -/
def samnmaxGame : Game :=
  knownGame "samnmax" "Sam & Max Hit the Road" "scumm"
    "Sam & Max investigate a missing bigfoot from a carnival freak show."
    "1993" "LucasArts" "DOS" "Adventure" "Excellent" "Sam & Max Hit the Road"

/-- C9: a record passes the free-text search filter iff the
lowercased/stripped query is a substring of at least one of the record's
lowercased name, id, company, engine, or genre; concretely, over the static
catalog the query "max" returns "Sam & Max Hit the Road", and the query
"lucasarts" matches that record by the company field alone. -/
theorem search_filter_spec :
    (∀ (rawQuery : String) (games : List Game) (g : Game),
      g ∈ search_filter rawQuery games ↔ g ∈ games ∧
        (trimChars (lowerData rawQuery) <:+: lowerData g.name ∨
         trimChars (lowerData rawQuery) <:+: lowerData g.game_id ∨
         trimChars (lowerData rawQuery) <:+: lowerData g.company ∨
         trimChars (lowerData rawQuery) <:+: lowerData g.engine ∨
         trimChars (lowerData rawQuery) <:+: lowerData g.genre)) ∧
    samnmaxGame ∈ KNOWN_GAMES ∧
    samnmaxGame ∈ search_filter "max" KNOWN_GAMES ∧
    samnmaxGame ∈ search_filter "lucasarts" KNOWN_GAMES ∧
    containsB (trimChars (lowerData "lucasarts"))
      (lowerData samnmaxGame.company) = true ∧
    containsB (trimChars (lowerData "lucasarts"))
      (lowerData samnmaxGame.name) = false ∧
    containsB (trimChars (lowerData "lucasarts"))
      (lowerData samnmaxGame.game_id) = false ∧
    containsB (trimChars (lowerData "lucasarts"))
      (lowerData samnmaxGame.engine) = false ∧
    containsB (trimChars (lowerData "lucasarts"))
      (lowerData samnmaxGame.genre) = false := by
  refine ⟨?_, by decide, by decide, by decide, by decide, by decide,
    by decide, by decide, by decide⟩
  intro rawQuery games g
  unfold search_filter
  by_cases hq : trimChars (lowerData rawQuery) = []
  · rw [if_pos hq, hq]
    have hnil : ∀ l : List Char, [] <:+: l := fun _ => List.nil_infix
    simp [hnil]
  · rw [if_neg hq]
    rw [List.mem_filter]
    unfold matchesQuery
    simp only [Bool.or_eq_true, containsB_iff]
    tauto

/-! ## C1 / C2: reconciliation claims -/

theorem wfdict_overlay (lib : Library) {d : List (String × Game)}
    (h : WFDict d) :
    WFDict (d.map (fun p => (p.1, overlayG lib p.1 p.2))) := by
  intro p hp
  simp only [List.mem_map] at hp
  obtain ⟨q, hq, rfl⟩ := hp
  exact h q hq

theorem keys_overlay (lib : Library) (d : List (String × Game)) :
    (d.map (fun p => (p.1, overlayG lib p.1 p.2))).map Prod.fst =
      d.map Prod.fst := by
  rw [List.map_map]
  rfl

theorem wfdict_nil : WFDict [] := fun p hp => absurd hp (List.not_mem_nil p)

/-- Every member of `get_all_games`' result is the value its id is bound to
in the overlaid reconciliation dict. -/
theorem get_all_games_lookup (staticCat proberResults : List Game)
    (lib : Library) (m : Game)
    (hm : m ∈ get_all_games staticCat proberResults lib) :
    alookup ((proberResults.foldl proberStep
        (lib.custom_games.foldl customStep
          (staticCat.foldl staticStep []))).map
      (fun p => (p.1, overlayG lib p.1 p.2))) m.game_id = some m := by
  have hperm : (get_all_games staticCat proberResults lib).Perm
      (((proberResults.foldl proberStep
          (lib.custom_games.foldl customStep
            (staticCat.foldl staticStep []))).map
        (fun p => (p.1, overlayG lib p.1 p.2))).map Prod.snd) := by
    unfold get_all_games
    exact List.perm_insertionSort _ _
  have hm4 := hperm.mem_iff.mp hm
  obtain ⟨p, hp, rfl⟩ := List.mem_map.mp hm4
  have hwf : WFDict ((proberResults.foldl proberStep
      (lib.custom_games.foldl customStep
        (staticCat.foldl staticStep []))).map
      (fun p => (p.1, overlayG lib p.1 p.2))) :=
    wfdict_overlay lib
      (wfdict_proberFold (wfdict_customFold (wfdict_staticFold wfdict_nil)))
  have hnd : (((proberResults.foldl proberStep
      (lib.custom_games.foldl customStep
        (staticCat.foldl staticStep []))).map
      (fun p => (p.1, overlayG lib p.1 p.2))).map Prod.fst).Nodup := by
    rw [keys_overlay]
    exact nodup_keys_proberFold
      (nodup_keys_customFold (nodup_keys_staticFold (by simp)))
  have := alookup_of_mem_nodup _ p hp hnd
  rw [← hwf p hp] at this
  exact this

/-- C1 (amended): the reconciled collection has pairwise-distinct ids, and
its id set is the union of the static-catalog ids, the prober-result ids,
and the ids of custom games whose id is non-empty (a custom game with an
empty id is skipped by the reconciler). -/
theorem get_all_games_ids (staticCat proberResults : List Game)
    (lib : Library) :
    ((get_all_games staticCat proberResults lib).map Game.game_id).Nodup ∧
    (∀ k : String,
      k ∈ (get_all_games staticCat proberResults lib).map Game.game_id ↔
        k ∈ staticCat.map Game.game_id ∨
        k ∈ proberResults.map Game.game_id ∨
        (k ∈ lib.custom_games.map Game.game_id ∧ k ≠ "")) := by
  have hperm : (get_all_games staticCat proberResults lib).Perm
      (((proberResults.foldl proberStep
          (lib.custom_games.foldl customStep
            (staticCat.foldl staticStep []))).map
        (fun p => (p.1, overlayG lib p.1 p.2))).map Prod.snd) := by
    unfold get_all_games
    exact List.perm_insertionSort _ _
  have hwf3 : WFDict (proberResults.foldl proberStep
      (lib.custom_games.foldl customStep (staticCat.foldl staticStep []))) :=
    wfdict_proberFold (wfdict_customFold (wfdict_staticFold wfdict_nil))
  have hids : ((((proberResults.foldl proberStep
      (lib.custom_games.foldl customStep
        (staticCat.foldl staticStep []))).map
      (fun p => (p.1, overlayG lib p.1 p.2))).map Prod.snd).map Game.game_id)
      = (proberResults.foldl proberStep
        (lib.custom_games.foldl customStep
          (staticCat.foldl staticStep []))).map Prod.fst := by
    rw [List.map_map, List.map_map]
    exact List.map_congr_left (fun p hp => hwf3 p hp)
  have hnd3 : ((proberResults.foldl proberStep
      (lib.custom_games.foldl customStep
        (staticCat.foldl staticStep []))).map Prod.fst).Nodup :=
    nodup_keys_proberFold
      (nodup_keys_customFold (nodup_keys_staticFold (by simp)))
  have hpermid := hperm.map Game.game_id
  rw [hids] at hpermid
  constructor
  · exact (hpermid.nodup_iff).mpr hnd3
  · intro k
    rw [hpermid.mem_iff, mem_keys_proberFold, mem_keys_customFold,
      mem_keys_staticFold]
    simp only [List.map_nil, List.not_mem_nil, false_or]
    tauto

/-- A custom-game entry whose stored `game_id` is the empty string. -/
def c1CustomEmptyId : Game :=
  Game.build "" "Nameless" "" "" "" "" "" "" "" false "" "" ""

/-- A library document containing only that custom game. -/
def c1Lib : Library := ⟨[], [c1CustomEmptyId]⟩

/-- Counterexample to C1 as stated: with an empty static catalog, an empty
prober result, and a library whose single custom game has id `""`, the
custom game's id is in the claimed union but not among the reconciled ids
(the reconciler drops falsy custom ids). -/
theorem get_all_games_ids_cx :
    ¬(∀ k : String,
        k ∈ (get_all_games [] [] c1Lib).map Game.game_id ↔
          k ∈ ([] : List Game).map Game.game_id ∨
          k ∈ ([] : List Game).map Game.game_id ∨
          k ∈ c1Lib.custom_games.map Game.game_id) := by
  intro h
  have h2 := (h "").mpr (Or.inr (Or.inr (by decide)))
  revert h2
  decide

theorem detect_installed_games_path (stdout : String) :
    ∀ g ∈ detect_installed_games stdout, g.path = "" := by
  intro g hg
  unfold detect_installed_games at hg
  obtain ⟨line, _, hparse⟩ := List.mem_filterMap.mp hg
  unfold parseTargetLine at hparse
  cases hs : splitWS line with
  | nil => rw [hs] at hparse; simp at hparse
  | cons a t =>
    cases t with
    | nil => rw [hs] at hparse; simp at hparse
    | cons b r =>
      rw [hs] at hparse
      simp only [Option.some.injEq] at hparse
      rw [← hparse]
      rfl

/-- C2: for every prober result whose id is already in the static catalog,
the reconciled record with that id has `installed = true` and `path` equal
to the prober's reported path, while every descriptive field keeps the
static catalog record's value. -/
theorem prober_overlay_preserves_metadata (staticCat : List Game)
    (stdout : String) (lib : Library) (gs r : Game)
    (hnd : (staticCat.map Game.game_id).Nodup)
    (hgs : gs ∈ staticCat)
    (hr : r ∈ detect_installed_games stdout)
    (hid : r.game_id = gs.game_id) :
    ∀ m ∈ get_all_games staticCat (detect_installed_games stdout) lib,
      m.game_id = gs.game_id →
      m.installed = true ∧ m.path = r.path ∧
      m.name = gs.name ∧ m.engine = gs.engine ∧
      m.description = gs.description ∧ m.year = gs.year ∧
      m.company = gs.company ∧ m.platform = gs.platform ∧
      m.genre = gs.genre ∧ m.compatibility = gs.compatibility ∧
      m.wiki_title = gs.wiki_title ∧ m.icon_name = gs.icon_name := by
  intro m hm hmid
  have hpaths := detect_installed_games_path stdout
  have h1 : alookup (staticCat.foldl staticStep []) gs.game_id = some gs :=
    staticFold_alookup staticCat hnd hgs
  have h2 : alookup (lib.custom_games.foldl customStep
      (staticCat.foldl staticStep [])) gs.game_id = some gs :=
    customFold_alookup_some _ _ _ _ h1
  have hkmem : gs.game_id ∈ (detect_installed_games stdout).map Game.game_id
      := by
    rw [← hid]
    exact List.mem_map_of_mem Game.game_id hr
  have h3 : alookup ((detect_installed_games stdout).foldl proberStep
      (lib.custom_games.foldl customStep (staticCat.foldl staticStep [])))
      gs.game_id = some (installMark "" gs) := by
    rw [proberFold_alookup _ _ _ _ hpaths h2, if_pos hkmem]
  have h4 : alookup (((detect_installed_games stdout).foldl proberStep
      (lib.custom_games.foldl customStep
        (staticCat.foldl staticStep []))).map
      (fun p => (p.1, overlayG lib p.1 p.2))) gs.game_id =
      some (overlayG lib gs.game_id (installMark "" gs)) := by
    rw [alookup_map_keyfun, h3]
    rfl
  have hm4 := get_all_games_lookup staticCat (detect_installed_games stdout)
    lib m hm
  rw [hmid, h4] at hm4
  have hmeq : m = overlayG lib gs.game_id (installMark "" gs) :=
    (Option.some.injEq _ _).mp hm4.symm
  have hrp : r.path = "" := hpaths r hr
  rw [hmeq, hrp]
  exact ⟨rfl, rfl, rfl, rfl, rfl, rfl, rfl, rfl, rfl, rfl, rfl, rfl⟩

/-- The prober result parsed from the witness stdout below. -/
def c2Prober : Game :=
  Game.build "samnmax" "Sam and Max" "" "" "" "" "" "" "" true "" "" ""

/-- Witness stdout for `--list-targets`: two header lines, one target. -/
def c2Stdout : String :=
  "ScummVM 2.8.0\nTarget               Description\nsamnmax Sam and Max\n"

/-- The merged record the witness reconciliation produces. -/
def c2Merged : Game :=
  ⟨"samnmax", "Sam & Max Hit the Road", "scumm",
   "Sam & Max investigate a missing bigfoot from a carnival freak show.",
   "1993", "LucasArts", "DOS", "", "samnmax", true, "Adventure", "Excellent",
   "Sam & Max Hit the Road", false, 0, 0⟩

theorem prober_overlay_preserves_metadata_witness :
    c2Merged.installed = true ∧ c2Merged.path = c2Prober.path ∧
    c2Merged.name = samnmaxGame.name ∧ c2Merged.engine = samnmaxGame.engine ∧
    c2Merged.description = samnmaxGame.description ∧
    c2Merged.year = samnmaxGame.year ∧
    c2Merged.company = samnmaxGame.company ∧
    c2Merged.platform = samnmaxGame.platform ∧
    c2Merged.genre = samnmaxGame.genre ∧
    c2Merged.compatibility = samnmaxGame.compatibility ∧
    c2Merged.wiki_title = samnmaxGame.wiki_title ∧
    c2Merged.icon_name = samnmaxGame.icon_name :=
  prober_overlay_preserves_metadata [samnmaxGame] c2Stdout ⟨[], []⟩
    samnmaxGame c2Prober (by decide) (by decide) (by decide) rfl
    c2Merged (by decide) rfl

theorem search_filter_spec_witness :
    samnmaxGame ∈ search_filter "max" KNOWN_GAMES ↔
      samnmaxGame ∈ KNOWN_GAMES ∧
      (trimChars (lowerData "max") <:+: lowerData samnmaxGame.name ∨
       trimChars (lowerData "max") <:+: lowerData samnmaxGame.game_id ∨
       trimChars (lowerData "max") <:+: lowerData samnmaxGame.company ∨
       trimChars (lowerData "max") <:+: lowerData samnmaxGame.engine ∨
       trimChars (lowerData "max") <:+: lowerData samnmaxGame.genre) :=
  search_filter_spec.1 "max" KNOWN_GAMES samnmaxGame

end ScummvmGtk
